import Mathlib

/-
Shallow embedding of the balatro-wiki CLI (src/balatro-wiki/src/main.rs).

Rust HashMaps are modelled as association lists with overwriting insert
(lookupA / insertA / adjustA below); HashSet / HashMap iteration order,
which is arbitrary in Rust, is passed in explicitly as a list parameter
wherever the code iterates over such a container.  Strings are Lean
Strings; where the code iterates over chars (truncate) the model works on
List Char, the sequence of Unicode scalar values of the Rust str.
Network and file-system effects are passed in as function parameters
(catFetch, fetchMod, parse, ...); timestamps are integer Unix seconds.
-/

set_option maxRecDepth 10000

/-- Item record, mirroring struct ModInfo (main.rs lines 40-50). -/
structure ModInfo where
  name : String
  description : String
  author : Option String
  version : Option String
  github_url : Option String
  wiki_url : String
  category : String
  dependencies : List String
deriving DecidableEq

/-- Catalog snapshot, mirroring struct ModDatabase (main.rs lines 52-57).
The two HashMaps are modelled as association lists. -/
structure ModDatabase where
  mods : List (String × ModInfo)
  categories : List (String × List String)
  last_updated : String
deriving DecidableEq

section AssocMap

variable {α : Type}

/-- HashMap lookup on the association-list model. -/
def lookupA : List (String × α) → String → Option α
  | [], _ => none
  | (k0, v0) :: rest, k => if k0 = k then some v0 else lookupA rest k

/-- HashMap insert: overwrite the binding if the key is present, else append. -/
def insertA : List (String × α) → String → α → List (String × α)
  | [], k, v => [(k, v)]
  | (k0, v0) :: rest, k, v =>
    if k0 = k then (k, v) :: rest else (k0, v0) :: insertA rest k v

/-- HashMap get_mut followed by an in-place update: a no-op if the key is absent. -/
def adjustA : List (String × α) → String → (α → α) → List (String × α)
  | [], _, _ => []
  | (k0, v0) :: rest, k, f =>
    if k0 = k then (k0, f v0) :: rest else (k0, v0) :: adjustA rest k f

theorem lookupA_insertA_self (m : List (String × α)) (k : String) (v : α) :
    lookupA (insertA m k v) k = some v := by
  induction m with
  | nil => simp [insertA, lookupA]
  | cons p rest ih =>
    obtain ⟨k0, v0⟩ := p
    by_cases h : k0 = k
    · simp [insertA, h, lookupA]
    · simp [insertA, h, lookupA, ih]

theorem lookupA_insertA_ne (m : List (String × α)) (k k2 : String) (v : α)
    (h : k2 ≠ k) : lookupA (insertA m k v) k2 = lookupA m k2 := by
  induction m with
  | nil => simp [insertA, lookupA, h.symm]
  | cons p rest ih =>
    obtain ⟨k0, v0⟩ := p
    by_cases h0 : k0 = k
    · subst h0
      simp [insertA, lookupA, h.symm]
    · simp only [insertA, if_neg h0, lookupA]
      by_cases h2 : k0 = k2
      · simp [h2]
      · simp [h2, ih]

theorem lookupA_adjustA_self (m : List (String × α)) (k : String) (f : α → α) :
    lookupA (adjustA m k f) k = (lookupA m k).map f := by
  induction m with
  | nil => simp [adjustA, lookupA]
  | cons p rest ih =>
    obtain ⟨k0, v0⟩ := p
    by_cases h : k0 = k
    · simp [adjustA, h, lookupA]
    · simp [adjustA, h, lookupA, ih]

theorem lookupA_adjustA_ne (m : List (String × α)) (k k2 : String) (f : α → α)
    (h : k2 ≠ k) : lookupA (adjustA m k f) k2 = lookupA m k2 := by
  induction m with
  | nil => simp [adjustA, lookupA]
  | cons p rest ih =>
    obtain ⟨k0, v0⟩ := p
    by_cases h0 : k0 = k
    · subst h0
      simp [adjustA, lookupA, h.symm]
    · simp only [adjustA, if_neg h0, lookupA]
      by_cases h2 : k0 = k2
      · simp [h2]
      · simp [h2, ih]

theorem mapFst_adjustA (m : List (String × α)) (k : String) (f : α → α) :
    (adjustA m k f).map Prod.fst = m.map Prod.fst := by
  induction m with
  | nil => simp [adjustA]
  | cons p rest ih =>
    obtain ⟨k0, v0⟩ := p
    by_cases h : k0 = k
    · simp [adjustA, h]
    · simp [adjustA, h, ih]

theorem lookupA_mem (m : List (String × α)) (k : String) (v : α)
    (h : lookupA m k = some v) : (k, v) ∈ m := by
  induction m with
  | nil => simp [lookupA] at h
  | cons p rest ih =>
    obtain ⟨k0, v0⟩ := p
    by_cases h0 : k0 = k
    · subst h0
      simp [lookupA] at h
      simp [h]
    · simp only [lookupA, if_neg h0] at h
      exact List.mem_cons_of_mem _ (ih h)

end AssocMap

/-- Generic foldl invariant preservation. -/
theorem foldl_preserve {σ β : Type} (g : σ → β → σ) (P : σ → Prop)
    (h : ∀ st b, P st → P (g st b)) :
    ∀ (l : List β) (st : σ), P st → P (l.foldl g st)
  | [], _, hp => hp
  | b :: l, st, hp => foldl_preserve g P h l (g st b) (h st b hp)

/-- Generic foldl lemma: a property established at some list element and
preserved by every step holds of the final state. -/
theorem foldl_eventually {σ β : Type} (g : σ → β → σ) (P : σ → Prop) (m : β)
    (hKeep : ∀ st b, P st → P (g st b)) (hSet : ∀ st, P (g st m)) :
    ∀ (l : List β) (st : σ), m ∈ l → P (l.foldl g st)
  | [], _, hm => absurd hm (List.not_mem_nil m)
  | b :: l, st, hm => by
    rcases List.mem_cons.mp hm with h | h
    · subst h
      exact foldl_preserve g P hKeep l (g st m) (hSet st)
    · exact foldl_eventually g P m hKeep hSet l (g st b) h

/-- Fresh empty snapshot, mirroring ModDatabase::new (lines 63-69); now is the
current RFC 3339 timestamp. -/
def ModDatabase.new (now : String) : ModDatabase :=
  { mods := [], categories := [], last_updated := now }

/-- Whole hours of a duration given in seconds, truncated toward zero as in
chrono Duration::num_hours. -/
def num_hours (secs : Int) : Int := Int.tdiv secs 3600

/-- Staleness gate, mirroring ModDatabase::should_update (lines 83-98).
parseTs models chrono DateTime::parse_from_rfc3339 (result in Unix seconds);
now is the current time in Unix seconds. -/
def should_update (db : ModDatabase) (parseTs : String → Option Int)
    (now : Int) : Bool :=
  if db.mods.isEmpty then true
  else
    match parseTs db.last_updated with
    | some t => decide (24 ≤ num_hours (now - t))
    | none => true

/-- Refresh-if-stale gate of ensure_fresh_with_verbosity (lines 108-123):
refreshed stands for the snapshot a refresh would produce. -/
def ensure_fresh (db refreshed : ModDatabase) (parseTs : String → Option Int)
    (now : Int) : ModDatabase :=
  if should_update db parseTs now then refreshed else db

theorem tdiv_ge_24_iff (d : Int) : 24 ≤ num_hours d ↔ 86400 ≤ d := by
  unfold num_hours
  rcases Int.le_total 0 d with h | h
  · rw [Int.tdiv_eq_ediv h (by omega)]
    omega
  · have h1 : Int.tdiv d 3600 ≤ 0 := by
      have h2 : Int.tdiv (-(-d)) 3600 = -(Int.tdiv (-d) 3600) :=
        Int.neg_tdiv (-d) 3600
      have h3 : (0 : Int) ≤ Int.tdiv (-d) 3600 :=
        Int.tdiv_nonneg (by omega) (by omega)
      have h4 : -(-d) = d := by omega
      rw [h4] at h2
      omega
    constructor
    · intro h3; omega
    · intro h3; omega

/-- Cache load, mirroring ModDatabase::load_or_create (lines 71-81).
file is none when the cache file is absent, some (.error e) when the file is
present but reading it fails, and some (.ok content) when it reads
successfully; parse models serde_json::from_str; now is the current
timestamp used for a fresh snapshot. -/
def load_or_create (file : Option (Except String String))
    (parse : String → Except String ModDatabase) (now : String) :
    Except String ModDatabase :=
  match file with
  | none => .ok (ModDatabase.new now)
  | some (.error e) => .error e
  | some (.ok content) => parse content

/-- Character-level truncation loop of truncate (lines 622-631). -/
def truncateLoop : List Char → Nat → Nat → List Char
  | [], _, _ => []
  | c :: rest, charCount, maxLen =>
    if charCount + 3 ≥ maxLen then []
    else c :: truncateLoop rest (charCount + 1) maxLen

/-- The literal "..." marker appended by truncate. -/
def ellipsisMarker : List Char := ['.', '.', '.']

/-- Truncation, mirroring fn truncate (lines 616-635); the string is given as
its list of chars (Rust s.chars()). -/
def truncate (s : List Char) (maxLen : Nat) : List Char :=
  if s.length ≤ maxLen then s
  else if maxLen ≤ 3 then ellipsisMarker
  else truncateLoop s 0 maxLen ++ ellipsisMarker

theorem truncateLoop_eq_take (s : List Char) :
    ∀ c m, truncateLoop s c m = s.take (m - 3 - c) := by
  induction s with
  | nil => intro c m; simp [truncateLoop]
  | cons a rest ih =>
    intro c m
    by_cases h : c + 3 ≥ m
    · have h2 : m - 3 - c = 0 := by omega
      simp [truncateLoop, h, h2]
    · have h2 : m - 3 - c = (m - 3 - (c + 1)) + 1 := by omega
      simp only [truncateLoop, if_neg h, ih (c + 1) m, h2, List.take_succ_cons]

/-- Substring containment, mirroring Rust str::contains with a string
pattern. -/
def strContains (hay pat : String) : Bool :=
  (List.range (hay.toList.length + 1)).any
    (fun i => ((hay.toList.drop i).take pat.toList.length) == pat.toList)

/-- Namespace filter of scrape_category_page_with_verbosity (line 192): a
title is skipped when it contains one of the three namespace markers
anywhere, via str::contains. -/
def isNamespacePage (title : String) : Bool :=
  strContains title "Category:" || strContains title "File:" ||
    strContains title "Template:"

/-- One step of the member loop: push the title unless it is skipped as a
namespace page or absent. -/
def parseStep (acc : List String) (t : Option String) : List String :=
  match t with
  | some title => if !(isNamespacePage title) then acc ++ [title] else acc
  | none => acc

/-- Member-title extraction loop of scrape_category_page_with_verbosity
(lines 178-207).  The input is none when the query or categorymembers
section of the JSON response is absent or not an array; an individual
member's entry is none when it has no string title. -/
def parse_category_members (members : Option (List (Option String))) :
    List String :=
  match members with
  | none => []
  | some ms => ms.foldl parseStep []

/-- Character-level test that s starts with pat. -/
def startsWithStr (s pat : String) : Bool :=
  s.toList.take pat.toList.length == pat.toList

/-- Modelled from the spec: exclusion decided by name-PREFIX convention
("must exclude names belonging to non-content namespaces ... by name-prefix
convention"), for comparison against the implementation's filter. -/
def specNamespaceExcluded (title : String) : Bool :=
  startsWithStr title "Category:" || startsWithStr title "File:" ||
    startsWithStr title "Template:"

/-- The behavior claim C6 asserts: members whose titles are not excluded by
the name-prefix convention are kept, all others dropped. -/
def C6SpecBehavior (ms : List (Option String)) : Prop :=
  parse_category_members (some ms) =
    (ms.filterMap id).filter (fun t => !(specNamespaceExcluded t))

theorem parse_members_fold (ms : List (Option String)) :
    ∀ acc : List String,
      ms.foldl parseStep acc
      = acc ++ (ms.filterMap id).filter (fun t => !(isNamespacePage t)) := by
  induction ms with
  | nil => intro acc; simp
  | cons t rest ih =>
    intro acc
    cases t with
    | none =>
      rw [List.foldl_cons, show parseStep acc none = acc from rfl, ih acc]
      simp
    | some title =>
      rw [List.foldl_cons]
      by_cases hn : isNamespacePage title
      · rw [show parseStep acc (some title) = acc from by simp [parseStep, hn],
          ih acc]
        simp [hn]
      · rw [show parseStep acc (some title) = acc ++ [title] from by
          simp [parseStep, hn], ih (acc ++ [title])]
        simp [hn]

/-- C2: should_update requires a refresh exactly when the cached snapshot's
item map is empty, or its last_updated timestamp cannot be parsed, or at
least 24 hours (86400 seconds) have elapsed since last_updated; otherwise
ensure_fresh keeps the cached snapshot as-is. -/
theorem C2_should_update_iff (db : ModDatabase)
    (parseTs : String → Option Int) (now : Int) :
    (should_update db parseTs now = true ↔
      db.mods = [] ∨ parseTs db.last_updated = none ∨
        ∃ t, parseTs db.last_updated = some t ∧ 86400 ≤ now - t)
    ∧ (∀ refreshed, should_update db parseTs now = false →
        ensure_fresh db refreshed parseTs now = db) := by
  constructor
  · by_cases he : db.mods.isEmpty = true
    · have h0 : db.mods = [] := List.isEmpty_iff.mp he
      simp [should_update, he, h0]
    · have h0 : ¬ db.mods = [] := fun hh => he (List.isEmpty_iff.mpr hh)
      cases hp : parseTs db.last_updated with
      | none => simp [should_update, he, hp, h0]
      | some t => simp [should_update, he, hp, h0, tdiv_ge_24_iff]
  · intro refreshed hf
    simp [ensure_fresh, hf]

/-- Witness for C2 at a concrete snapshot: an empty snapshot is stale. -/
theorem C2_witness :
    should_update (ModDatabase.new "x") (fun _ => none) 0 = true :=
  ((C2_should_update_iff (ModDatabase.new "x") (fun _ => none) 0).1).mpr
    (Or.inl rfl)

/-- C4: load_or_create returns a fresh empty snapshot stamped with the
current time when the cache file is absent, and propagates the error (never
substituting an empty snapshot) when the file is present but cannot be read,
or reads but fails to parse. -/
theorem C4_load_or_create (parse : String → Except String ModDatabase)
    (now : String) :
    (load_or_create none parse now = .ok (ModDatabase.new now)
      ∧ (ModDatabase.new now).mods = []
      ∧ (ModDatabase.new now).last_updated = now)
    ∧ (∀ e, load_or_create (some (.error e)) parse now = .error e)
    ∧ (∀ content, load_or_create (some (.ok content)) parse now = parse content)
    ∧ (∀ content e, parse content = .error e →
        load_or_create (some (.ok content)) parse now = .error e) :=
  ⟨⟨rfl, rfl, rfl⟩, fun _ => rfl, fun _ => rfl,
    fun content e h => by simpa [load_or_create] using h⟩

/-- Witness for C4 at a concrete input: an absent cache file yields the fresh
empty snapshot. -/
theorem C4_witness :
    load_or_create none (fun _ => .error "corrupt") "t" =
      .ok (ModDatabase.new "t") :=
  (C4_load_or_create (fun _ => .error "corrupt") "t").1.1

/-- Counterexample for C5 as stated: truncating the four-character string
"abcd" to max_len = 2 returns the three-character marker "...", which
exceeds max_len. -/
theorem C5_counterexample : ¬ ((truncate ['a', 'b', 'c', 'd'] 2).length ≤ 2) := by
  decide

/-- C5 (amended to max_len at least 3, the length of the ellipsis marker):
truncate returns at most max_len characters, returns the input unchanged
exactly when it already fits, and otherwise returns a character-level prefix
of the input followed by the ellipsis marker (so it never splits inside a
multi-byte glyph, the model operating on whole chars as the code does). -/
theorem C5_truncate (s : List Char) (maxLen : Nat) (h : 3 ≤ maxLen) :
    (truncate s maxLen).length ≤ maxLen
    ∧ (s.length ≤ maxLen → truncate s maxLen = s)
    ∧ (maxLen < s.length →
        truncate s maxLen = s.take (maxLen - 3) ++ ellipsisMarker) := by
  refine ⟨?_, ?_, ?_⟩
  · by_cases hl : s.length ≤ maxLen
    · unfold truncate
      rw [if_pos hl]
      exact hl
    · push_neg at hl
      by_cases h3 : maxLen ≤ 3
      · unfold truncate
        rw [if_neg (by omega), if_pos h3]
        simpa [ellipsisMarker] using h
      · unfold truncate
        rw [if_neg (by omega), if_neg h3, truncateLoop_eq_take]
        simp only [List.length_append, List.length_take, ellipsisMarker,
          List.length_cons, List.length_nil, Nat.sub_zero]
        omega
  · intro hl
    unfold truncate
    rw [if_pos hl]
  · intro hl
    by_cases h3 : maxLen ≤ 3
    · have h33 : maxLen = 3 := by omega
      subst h33
      unfold truncate
      rw [if_neg (by omega), if_pos h3]
      simp
    · unfold truncate
      rw [if_neg (by omega), if_neg h3, truncateLoop_eq_take]
      simp

/-- Witness for C5 at a concrete input: truncating six chars to five. -/
theorem C5_witness : (truncate ['a', 'b', 'c', 'd', 'e', 'f'] 5).length ≤ 5 :=
  (C5_truncate ['a', 'b', 'c', 'd', 'e', 'f'] 5 (by decide)).1

/-- Counterexample for C6 as stated: the title "Read File: Guide" contains
the marker "File:" but does not start with any namespace marker, so the
name-prefix convention keeps it while the implementation drops it. -/
theorem C6_counterexample : ¬ C6SpecBehavior [some "Read File: Guide"] := by
  unfold C6SpecBehavior
  decide

/-- C6 (amended: exclusion is decided by substring containment of the
markers "Category:", "File:", "Template:" anywhere in the title, not by a
prefix convention): an absent member section yields the empty sequence, and
otherwise exactly the member titles not containing a marker are returned, in
order; the spec's own scenario still holds. -/
theorem C6_parse_category_members :
    parse_category_members none = []
    ∧ (∀ ms, parse_category_members (some ms) =
        (ms.filterMap id).filter (fun t => !(isNamespacePage t)))
    ∧ parse_category_members (some [some "Foo Mod", some "Category:Meta"]) =
        ["Foo Mod"] := by
  refine ⟨rfl, ?_, by decide⟩
  intro ms
  simpa using parse_members_fold ms []

/-- Lowercasing, modelling str::to_lowercase char by char. -/
def lowerStr (s : String) : String := String.mk (s.toList.map Char.toLower)

/-- Search scoring, mirroring fn calculate_search_score (lines 472-500);
query is already lowercased by the caller, as in search_mods. -/
def calculate_search_score (mi : ModInfo) (query : String) : Int :=
  (if lowerStr mi.name = query then 100
   else if strContains (lowerStr mi.name) query then 50
   else 0)
  + (if strContains (lowerStr mi.description) query then 25 else 0)
  + (match mi.author with
     | some a => if strContains (lowerStr a) query then 20 else 0
     | none => 0)
  + (if strContains (lowerStr mi.category) query then 15 else 0)

/-- Positive-score matches in item-map iteration order, mirroring the
collection loop of fn search_mods (lines 398-407); mods is the iteration
order of db.mods.values(). -/
def searchMatches (mods : List ModInfo) (query : String) :
    List (ModInfo × Int) :=
  mods.filterMap (fun mi =>
    let sc := calculate_search_score mi (lowerStr query)
    if 0 < sc then some (mi, sc) else none)

/-- The comparator passed to sort_by (line 409): descending by score. -/
def scoreDescLe (a b : ModInfo × Int) : Bool := decide (b.2 ≤ a.2)

/-- The sorted match list of fn search_mods (line 409); Rust sort_by is a
stable sort, modelled by mergeSort. -/
def search_sorted (mods : List ModInfo) (query : String) :
    List (ModInfo × Int) :=
  (searchMatches mods query).mergeSort scoreDescLe

/-- The results displayed by fn search_mods: the top 20 of the sorted
matches (line 419). -/
def search_mods (mods : List ModInfo) (query : String) :
    List (ModInfo × Int) :=
  (search_sorted mods query).take 20

theorem scoreDescLe_trans : ∀ a b c : ModInfo × Int,
    scoreDescLe a b → scoreDescLe b c → scoreDescLe a c := by
  intro a b c h1 h2
  simp only [scoreDescLe, decide_eq_true_eq] at *
  omega

theorem scoreDescLe_total : ∀ a b : ModInfo × Int,
    scoreDescLe a b || scoreDescLe b a := by
  intro a b
  simp only [scoreDescLe, Bool.or_eq_true, decide_eq_true_eq]
  omega

/-- C7: for every catalog and query, search returns at most 20 results,
ordered by non-increasing score, and every returned pair carries the item's
computed score, which is strictly positive. -/
theorem C7_search_mods (mods : List ModInfo) (query : String) :
    (search_mods mods query).length ≤ 20
    ∧ List.Pairwise (fun a b : ModInfo × Int => b.2 ≤ a.2)
        (search_mods mods query)
    ∧ ∀ p ∈ search_mods mods query,
        p.2 = calculate_search_score p.1 (lowerStr query) ∧ 0 < p.2 := by
  refine ⟨?_, ?_, ?_⟩
  · unfold search_mods
    simp [List.length_take]
  · have hs := List.sorted_mergeSort scoreDescLe_trans scoreDescLe_total
      (searchMatches mods query)
    have hs2 : List.Pairwise (fun a b : ModInfo × Int => b.2 ≤ a.2)
        (search_sorted mods query) := by
      refine hs.imp ?_
      intro a b hab
      simpa [scoreDescLe] using hab
    exact List.Pairwise.sublist (List.take_sublist _ _) hs2
  · intro p hp
    have hp2 : p ∈ search_sorted mods query := List.mem_of_mem_take hp
    have hp3 : p ∈ searchMatches mods query :=
      ((List.mergeSort_perm _ _).mem_iff).mp hp2
    rcases List.mem_filterMap.mp hp3 with ⟨mi, _, hsome⟩
    dsimp only at hsome
    split at hsome
    · rename_i hpos
      cases hsome
      exact ⟨rfl, hpos⟩
    · cases hsome

/-- Witness for C7 at a concrete input. -/
theorem C7_witness : (search_mods [] "joker").length ≤ 20 :=
  (C7_search_mods [] "joker").1

/-- Minimal concrete item record used in counterexamples. -/
def mkItem (nm : String) : ModInfo :=
  { name := nm, description := "d", author := none, version := none,
    github_url := none, wiki_url := "w", category := "c", dependencies := [] }

/-- The run-to-run determinism property claim C9 asserts: the output of
search depends only on the snapshot contents; it may not depend on the item
map's iteration order, which in Rust varies from process run to process run
for the same cached snapshot. -/
def searchRunDeterministic : Prop :=
  ∀ (mods mods2 : List ModInfo) (q : String),
    mods.Perm mods2 → search_mods mods q = search_mods mods2 q

/-- Counterexample for C9 as stated: two items scoring equally for query
"x"; two runs whose item maps iterate in opposite orders return oppositely
ordered result lists for the same snapshot. -/
theorem C9_counterexample : ¬ searchRunDeterministic := by
  intro h
  have hperm : (mkItem "xa" :: mkItem "xb" :: []).Perm
      (mkItem "xb" :: mkItem "xa" :: []) := List.Perm.swap _ _ _
  have heq := h _ _ "x" hperm
  have e1 : search_mods [mkItem "xa", mkItem "xb"] "x"
      = [(mkItem "xa", 50), (mkItem "xb", 50)] := by
    unfold search_mods search_sorted
    rw [show searchMatches [mkItem "xa", mkItem "xb"] "x"
        = [(mkItem "xa", 50), (mkItem "xb", 50)] from by decide]
    rw [List.mergeSort_of_sorted (by decide)]
    decide
  have e2 : search_mods [mkItem "xb", mkItem "xa"] "x"
      = [(mkItem "xb", 50), (mkItem "xa", 50)] := by
    unfold search_mods search_sorted
    rw [show searchMatches [mkItem "xb", mkItem "xa"] "x"
        = [(mkItem "xb", 50), (mkItem "xa", 50)] from by decide]
    rw [List.mergeSort_of_sorted (by decide)]
    decide
  rw [e1, e2] at heq
  exact absurd heq (by decide)

/-- C9 (amended: for a fixed iteration order of the item map the result list
is fully determined, ties between equal scores preserving exactly that
order; across process runs the iteration order of the rebuilt hash map may
differ, permuting equal-score ties): the equal-score segment of the sorted
result is precisely the equal-score matches in original order. -/
theorem C9_search_stable (mods : List ModInfo) (q : String) (s : Int) :
    (search_sorted mods q).filter (fun p => p.2 == s)
      = (searchMatches mods q).filter (fun p => p.2 == s) := by
  have hperm : (search_sorted mods q).Perm (searchMatches mods q) :=
    List.mergeSort_perm _ scoreDescLe
  have hsubl : List.Sublist
      ((searchMatches mods q).filter (fun p => p.2 == s))
      (searchMatches mods q) := List.filter_sublist _
  have hmemscore : ∀ p ∈ (searchMatches mods q).filter (fun p => p.2 == s),
      p.2 = s := by
    intro p hp
    have h2 := (List.mem_filter.mp hp).2
    simpa using h2
  have hpair : ((searchMatches mods q).filter
      (fun p => p.2 == s)).Pairwise (fun a b => scoreDescLe a b) := by
    apply List.pairwise_of_forall_mem_list
    intro a ha b hb
    have h1 := hmemscore a ha
    have h2 := hmemscore b hb
    simp [scoreDescLe, h1, h2]
  have hst : List.Sublist
      ((searchMatches mods q).filter (fun p => p.2 == s))
      (search_sorted mods q) :=
    List.sublist_mergeSort scoreDescLe_trans scoreDescLe_total hpair hsubl
  have hself : ((searchMatches mods q).filter (fun p => p.2 == s)).filter
      (fun p => p.2 == s) = (searchMatches mods q).filter (fun p => p.2 == s) :=
    List.filter_eq_self.mpr (fun a ha => by simpa using hmemscore a ha)
  have hsubf : List.Sublist
      ((searchMatches mods q).filter (fun p => p.2 == s))
      ((search_sorted mods q).filter (fun p => p.2 == s)) := by
    have h3 := hst.filter (fun p => p.2 == s)
    rwa [hself] at h3
  have hpf : ((search_sorted mods q).filter (fun p => p.2 == s)).Perm
      ((searchMatches mods q).filter (fun p => p.2 == s)) := hperm.filter _
  exact (hsubf.eq_of_length hpf.length_eq.symm).symm

/-- Witness for C9's amended theorem at a concrete input. -/
theorem C9_witness :
    (search_sorted [mkItem "xa"] "x").filter (fun p => p.2 == (50 : Int))
      = (searchMatches [mkItem "xa"] "x").filter (fun p => p.2 == (50 : Int)) :=
  C9_search_stable [mkItem "xa"] "x" 50

/-- The six configured categories (display name, wiki key) hardcoded in
update_database_with_verbosity (lines 270-277). -/
def configuredCategories : List (String × String) :=
  [("Content Mods", "Content%20Mods"),
   ("Joker Mods", "Joker%20Mods"),
   ("Quality of Life Mods", "Quality%20of%20Life%20Mods"),
   ("Crossover Mods", "Crossover%20Mods"),
   ("Technical Mods", "Technical%20Mods"),
   ("API Mods", "API%20Mods")]

/-- Record every listed name as owned by the given category in the
mod_categories map (lines 290-293); a later insert overwrites. -/
def insertNames (acc : List (String × String)) (names : List String)
    (cat : String) : List (String × String) :=
  match names with
  | [] => acc
  | n :: rest => insertNames (insertA acc n cat) rest cat

/-- The category-collection loop (lines 283-299): each category's listing is
fetched; a failure is only logged and contributes no members. -/
def collectFold (catFetch : String → Except Unit (List String)) :
    List (String × String) → List (String × String) → List (String × String)
  | [], acc => acc
  | p :: rest, acc =>
    match catFetch p.2 with
    | .ok names => collectFold catFetch rest (insertNames acc names p.1)
    | .error _ => collectFold catFetch rest acc

/-- The mod_categories map after the collection phase; catFetch models
scrape_category_page_with_verbosity keyed by the wiki category key. -/
def collectCategories (catFetch : String → Except Unit (List String)) :
    List (String × String) :=
  collectFold catFetch configuredCategories []

/-- The pre-seeded category_mods buckets, one empty bucket per configured
category (lines 318-321). -/
def initBuckets : List (String × List String) :=
  configuredCategories.foldl (fun acc p => insertA acc p.1 []) []

/-- One step of the result-collection loop (lines 323-352): fetchMod n
models the joined task result for item n, with none standing for a failed
fetch/parse or a panicked task.  On success the record's category is set to
the owning category, the record's (scraped) name is pushed into that bucket,
and the record is inserted into the item map under its (scraped) name; an
item without an owning category entry is dropped. -/
def processOne (modCats : List (String × String))
    (fetchMod : String → Option ModInfo)
    (st : List (String × ModInfo) × List (String × List String))
    (n : String) :
    List (String × ModInfo) × List (String × List String) :=
  match fetchMod n with
  | some mi =>
    match lookupA modCats n with
    | some cat =>
      (insertA st.1 ({ mi with category := cat }).name { mi with category := cat },
       adjustA st.2 cat (fun l => l ++ [({ mi with category := cat }).name]))
    | none => st
  | none => st

/-- update_database_with_verbosity (lines 267-356).  order is the iteration
order of the all_mod_names HashSet, which is also the task spawn and
collection order; now is the timestamp Utc::now taken by ModDatabase::new. -/
def update_database (catFetch : String → Except Unit (List String))
    (fetchMod : String → Option ModInfo) (order : List String)
    (now : String) : ModDatabase :=
  let modCats := collectCategories catFetch
  let st := order.foldl (processOne modCats fetchMod) ([], initBuckets)
  { mods := st.1, categories := st.2, last_updated := now }

theorem initBuckets_all_empty : ∀ p ∈ initBuckets, p.2 = ([] : List String) := by
  decide

theorem lookupA_insertNames (cat : String) :
    ∀ (names : List String) (acc : List (String × String)) (n d : String),
      lookupA (insertNames acc names cat) n = some d →
      lookupA acc n = some d ∨ (d = cat ∧ n ∈ names) := by
  intro names
  induction names with
  | nil => intro acc n d h; exact Or.inl h
  | cons m rest ih =>
    intro acc n d h
    rcases ih (insertA acc m cat) n d h with h1 | h1
    · by_cases hnm : n = m
      · subst hnm
        rw [lookupA_insertA_self] at h1
        injection h1 with h2
        exact Or.inr ⟨h2.symm, List.mem_cons_self _ _⟩
      · rw [lookupA_insertA_ne _ _ _ _ hnm] at h1
        exact Or.inl h1
    · exact Or.inr ⟨h1.1, List.mem_cons_of_mem _ h1.2⟩

theorem lookupA_collectFold (catFetch : String → Except Unit (List String)) :
    ∀ (cats : List (String × String)) (acc : List (String × String))
      (n d : String),
      lookupA (collectFold catFetch cats acc) n = some d →
      lookupA acc n = some d ∨
        ∃ k names, (d, k) ∈ cats ∧ catFetch k = .ok names ∧ n ∈ names := by
  intro cats
  induction cats with
  | nil => intro acc n d h; exact Or.inl h
  | cons p rest ih =>
    intro acc n d h
    unfold collectFold at h
    cases hcf : catFetch p.2 with
    | error e =>
      rw [hcf] at h
      rcases ih acc n d h with h1 | ⟨k, names, hm, hok, hn⟩
      · exact Or.inl h1
      · exact Or.inr ⟨k, names, List.mem_cons_of_mem _ hm, hok, hn⟩
    | ok names =>
      rw [hcf] at h
      rcases ih (insertNames acc names p.1) n d h with h1 | h2
      · rcases lookupA_insertNames p.1 names acc n d h1 with ha | hb
        · exact Or.inl ha
        · refine Or.inr ⟨p.2, names, ?_, hcf, hb.2⟩
          rw [hb.1, Prod.mk.eta]
          exact List.mem_cons_self _ _
      · obtain ⟨k2, names2, hm, hok, hn⟩ := h2
        exact Or.inr ⟨k2, names2, List.mem_cons_of_mem _ hm, hok, hn⟩

theorem collectFold_all_error (catFetch : String → Except Unit (List String)) :
    ∀ (cats : List (String × String)),
      (∀ p ∈ cats, catFetch p.2 = .error ()) →
      ∀ acc, collectFold catFetch cats acc = acc := by
  intro cats
  induction cats with
  | nil => intro _ acc; rfl
  | cons p rest ih =>
    intro hall acc
    unfold collectFold
    rw [hall p (List.mem_cons_self _ _)]
    exact ih (fun q hq => hall q (List.mem_cons_of_mem _ hq)) acc

/-- Treating a failed category listing as an empty listing. -/
def errToEmpty (r : Except Unit (List String)) : Except Unit (List String) :=
  match r with
  | .error _ => .ok []
  | .ok l => .ok l

theorem collectFold_errToEmpty (catFetch : String → Except Unit (List String)) :
    ∀ (cats : List (String × String)) (acc : List (String × String)),
      collectFold (fun k => errToEmpty (catFetch k)) cats acc
        = collectFold catFetch cats acc := by
  intro cats
  induction cats with
  | nil => intro acc; rfl
  | cons p rest ih =>
    intro acc
    unfold collectFold
    cases hcf : catFetch p.2 with
    | error e => exact ih acc
    | ok names => exact ih (insertNames acc names p.1)

/-- Index/item consistency asserted by claim C1: every name in any bucket of
category_index has an items entry whose stored category field equals the
bucket name. -/
def dbIndexConsistent (db : ModDatabase) : Prop :=
  ∀ cat l n, lookupA db.categories cat = some l → n ∈ l →
    ∃ mi, lookupA db.mods n = some mi ∧ mi.category = cat

/-- Bucket uniqueness asserted by claim C1: no name ever appears under two
different buckets of category_index. -/
def dbBucketsDisjoint (db : ModDatabase) : Prop :=
  ∀ cat1 cat2 l1 l2 n, lookupA db.categories cat1 = some l1 →
    lookupA db.categories cat2 = some l2 → n ∈ l1 → n ∈ l2 → cat1 = cat2

/-- Invariant of the result-collection loop (claim C1): bucket members are
owned by their bucket in mod_categories, item records carry their
mod_categories category, and bucket members have item entries. -/
def C1Inv (modCats : List (String × String))
    (st : List (String × ModInfo) × List (String × List String)) : Prop :=
  (∀ cat l n, lookupA st.2 cat = some l → n ∈ l →
    lookupA modCats n = some cat)
  ∧ (∀ n mi, lookupA st.1 n = some mi →
    lookupA modCats n = some mi.category)
  ∧ (∀ cat l n, lookupA st.2 cat = some l → n ∈ l →
    (lookupA st.1 n).isSome = true)

theorem C1Inv_init (modCats : List (String × String)) :
    C1Inv modCats ([], initBuckets) := by
  refine ⟨?_, ?_, ?_⟩
  · intro cat l n hl hn
    have h2 : l = [] := initBuckets_all_empty _ (lookupA_mem _ _ _ hl)
    subst h2
    exact absurd hn (List.not_mem_nil n)
  · intro n mi h
    simp [lookupA] at h
  · intro cat l n hl hn
    have h2 : l = [] := initBuckets_all_empty _ (lookupA_mem _ _ _ hl)
    subst h2
    exact absurd hn (List.not_mem_nil n)

theorem processOne_skip_none (modCats : List (String × String))
    (fetchMod : String → Option ModInfo) (st) (n : String)
    (hf : fetchMod n = none) : processOne modCats fetchMod st n = st := by
  unfold processOne
  rw [hf]

theorem processOne_skip_nocat (modCats : List (String × String))
    (fetchMod : String → Option ModInfo) (st) (n : String) (mi : ModInfo)
    (hf : fetchMod n = some mi) (hc : lookupA modCats n = none) :
    processOne modCats fetchMod st n = st := by
  unfold processOne
  rw [hf, hc]

theorem processOne_eq_of (modCats : List (String × String))
    (fetchMod : String → Option ModInfo) (st) (n : String) (mi : ModInfo)
    (cat : String) (hf : fetchMod n = some mi)
    (hc : lookupA modCats n = some cat) :
    processOne modCats fetchMod st n =
      (insertA st.1 ({ mi with category := cat }).name { mi with category := cat },
       adjustA st.2 cat (fun l => l ++ [({ mi with category := cat }).name])) := by
  unfold processOne
  rw [hf, hc]

theorem C1Inv_step (modCats : List (String × String))
    (fetchMod : String → Option ModInfo)
    (HF : ∀ n mi, fetchMod n = some mi → mi.name = n)
    (st : List (String × ModInfo) × List (String × List String)) (n : String)
    (h : C1Inv modCats st) :
    C1Inv modCats (processOne modCats fetchMod st n) := by
  obtain ⟨hA, hB, hC⟩ := h
  cases hf : fetchMod n with
  | none =>
    rw [processOne_skip_none _ _ _ _ hf]
    exact ⟨hA, hB, hC⟩
  | some mi =>
    cases hc : lookupA modCats n with
    | none =>
      rw [processOne_skip_nocat _ _ _ _ _ hf hc]
      exact ⟨hA, hB, hC⟩
    | some cat =>
      rw [processOne_eq_of _ _ _ _ _ _ hf hc]
      have hname : ({ mi with category := cat } : ModInfo).name = n := HF n mi hf
      rw [hname]
      refine ⟨?_, ?_, ?_⟩
      · intro cat0 l0 n0 hl0 hn0
        by_cases hcc : cat0 = cat
        · subst hcc
          rw [lookupA_adjustA_self] at hl0
          cases hb : lookupA st.2 cat0 with
          | none => rw [hb] at hl0; cases hl0
          | some l1 =>
            rw [hb] at hl0
            have hl1 : l1 ++ [n] = l0 := by
              simpa using hl0
            subst hl1
            rcases List.mem_append.mp hn0 with h1 | h1
            · exact hA cat0 l1 n0 hb h1
            · have h2 : n0 = n := by simpa using h1
              subst h2
              exact hc
        · rw [lookupA_adjustA_ne _ _ _ _ hcc] at hl0
          exact hA cat0 l0 n0 hl0 hn0
      · intro n0 mi0 h0
        by_cases hnn : n0 = n
        · subst hnn
          rw [lookupA_insertA_self] at h0
          injection h0 with h1
          subst h1
          exact hc
        · rw [lookupA_insertA_ne _ _ _ _ hnn] at h0
          exact hB n0 mi0 h0
      · intro cat0 l0 n0 hl0 hn0
        by_cases hnn : n0 = n
        · subst hnn
          rw [lookupA_insertA_self]
          rfl
        · rw [lookupA_insertA_ne _ _ _ _ hnn]
          by_cases hcc : cat0 = cat
          · subst hcc
            rw [lookupA_adjustA_self] at hl0
            cases hb : lookupA st.2 cat0 with
            | none => rw [hb] at hl0; cases hl0
            | some l1 =>
              rw [hb] at hl0
              have hl1 : l1 ++ [n] = l0 := by
                simpa using hl0
              subst hl1
              rcases List.mem_append.mp hn0 with h1 | h1
              · exact hC cat0 l1 n0 hb h1
              · have h2 : n0 = n := by simpa using h1
                exact absurd h2 hnn
          · rw [lookupA_adjustA_ne _ _ _ _ hcc] at hl0
            exact hC cat0 l0 n0 hl0 hn0

/-- C1 (amended: provided every successfully scraped detail page reports the
same name it was requested under): every name in any category_index bucket
has an items entry whose category field equals that bucket's name, and no
name appears under two different buckets.  Without that proviso two
requested items scraped to one display name break both parts (see the
counterexample). -/
theorem C1_snapshot_consistent (catFetch : String → Except Unit (List String))
    (fetchMod : String → Option ModInfo) (order : List String) (now : String)
    (HF : ∀ n mi, fetchMod n = some mi → mi.name = n) :
    dbIndexConsistent (update_database catFetch fetchMod order now)
    ∧ dbBucketsDisjoint (update_database catFetch fetchMod order now) := by
  have hInv : C1Inv (collectCategories catFetch)
      (order.foldl (processOne (collectCategories catFetch) fetchMod)
        ([], initBuckets)) :=
    foldl_preserve _ _
      (fun st b hp => C1Inv_step (collectCategories catFetch) fetchMod HF st b hp)
      order ([], initBuckets) (C1Inv_init (collectCategories catFetch))
  obtain ⟨hA, hB, hC⟩ := hInv
  constructor
  · intro cat l n hl hn
    have h1 := hC cat l n hl hn
    rcases Option.isSome_iff_exists.mp h1 with ⟨mi, hmi⟩
    refine ⟨mi, hmi, ?_⟩
    have h2 := hB n mi hmi
    have h3 := hA cat l n hl hn
    have h4 := h3.symm.trans h2
    exact (Option.some.inj h4).symm
  · intro cat1 cat2 l1 l2 n h1 h2 hn1 hn2
    have ha1 := hA cat1 l1 n h1 hn1
    have ha2 := hA cat2 l2 n h2 hn2
    have h3 := ha1.symm.trans ha2
    exact Option.some.inj h3

/-- Category listing used by the C1/C3 counterexamples. -/
def cexCatFetch : String → Except Unit (List String) := fun k =>
  if k = "Content%20Mods" then .ok ["MA"]
  else if k = "Joker%20Mods" then .ok ["MB"]
  else .ok []

/-- Detail fetch whose two pages both report the display name "Same". -/
def cexFetchMod : String → Option ModInfo := fun n =>
  if n = "MA" then some (mkItem "Same")
  else if n = "MB" then some (mkItem "Same")
  else none

/-- The snapshot of the C1 counterexample. -/
def cexDb : ModDatabase := update_database cexCatFetch cexFetchMod ["MA", "MB"] "t"

/-- Counterexample for C1 as stated: items "MA" (Content Mods) and "MB"
(Joker Mods) both scrape to display name "Same"; the resulting snapshot
indexes "Same" under both buckets while its single items entry stores
category "Joker Mods", so the Content Mods bucket disagrees with the stored
category field. -/
theorem C1_counterexample : ¬ (dbIndexConsistent cexDb ∧ dbBucketsDisjoint cexDb) := by
  intro h
  obtain ⟨mi, hmi, hcat⟩ := h.1 "Content Mods" ["Same"] "Same" (by decide) (by decide)
  have hm2 : lookupA cexDb.mods "Same"
      = some { mkItem "Same" with category := "Joker Mods" } := by decide
  have h5 := hmi.symm.trans hm2
  injection h5 with h6
  rw [h6] at hcat
  exact absurd hcat (by decide)

/-- Detail fetch that reports the requested name, for witnesses. -/
def okFetch : String → Option ModInfo := fun n => some (mkItem n)

theorem okFetch_names : ∀ n mi, okFetch n = some mi → mi.name = n := by
  intro n mi h
  injection h with h2
  rw [← h2]
  rfl

/-- Witness for C1 at a concrete input. -/
theorem C1_witness :
    dbIndexConsistent (update_database cexCatFetch okFetch ["MA"] "t")
    ∧ dbBucketsDisjoint (update_database cexCatFetch okFetch ["MA"] "t") :=
  C1_snapshot_consistent cexCatFetch okFetch ["MA"] "t" okFetch_names

/-- Exclusion of failed items asserted by claim C3: any item whose detail
fetch failed appears neither in the items map nor in any bucket. -/
def dbFailedExcluded (db : ModDatabase)
    (fetchMod : String → Option ModInfo) : Prop :=
  ∀ n, fetchMod n = none →
    lookupA db.mods n = none
    ∧ ∀ cat l, lookupA db.categories cat = some l → n ∉ l

/-- Category listing of the C3 counterexample: one category listing both
items. -/
def cexCatFetch3 : String → Except Unit (List String) := fun k =>
  if k = "Content%20Mods" then .ok ["Foo Mod", "Bar Mod"] else .ok []

/-- Detail fetch of the C3 counterexample: the fetch for "Bar Mod" fails,
but the page fetched for "Foo Mod" reports display name "Bar Mod". -/
def cexFetchMod3 : String → Option ModInfo := fun n =>
  if n = "Foo Mod" then some (mkItem "Bar Mod") else none

/-- The snapshot of the C3 counterexample. -/
def cexDb3 : ModDatabase :=
  update_database cexCatFetch3 cexFetchMod3 ["Foo Mod", "Bar Mod"] "t"

/-- Counterexample for C3 as stated: the detail fetch for "Bar Mod" fails,
yet the snapshot's items map still carries an entry keyed "Bar Mod", because
the successful fetch for "Foo Mod" scraped that display name. -/
theorem C3_counterexample : ¬ dbFailedExcluded cexDb3 cexFetchMod3 := by
  intro h
  have h1 := (h "Bar Mod" (by decide)).1
  exact absurd h1 (by decide)

/-- C3 (amended: provided every successfully scraped detail page reports the
same name it was requested under): an item whose detail fetch or parse
failed contributes nothing to the snapshot — its name is in neither the
items map nor any bucket — while every processed item with a successful
fetch and an owning category is present in the items map; the refresh
itself always completes with a snapshot. -/
theorem C3_failed_excluded (catFetch : String → Except Unit (List String))
    (fetchMod : String → Option ModInfo) (order : List String) (now : String)
    (HF : ∀ n mi, fetchMod n = some mi → mi.name = n) :
    dbFailedExcluded (update_database catFetch fetchMod order now) fetchMod
    ∧ (∀ m mi, m ∈ order → fetchMod m = some mi →
        (lookupA (collectCategories catFetch) m).isSome = true →
        (lookupA (update_database catFetch fetchMod order now).mods m).isSome
          = true) := by
  constructor
  · intro n hn
    refine foldl_preserve (processOne (collectCategories catFetch) fetchMod)
      (fun st => lookupA st.1 n = none
        ∧ ∀ cat l, lookupA st.2 cat = some l → n ∉ l) ?_ order
      ([], initBuckets) ?_
    · intro st b hp
      cases hf : fetchMod b with
      | none =>
        rw [processOne_skip_none _ _ _ _ hf]
        exact hp
      | some mi =>
        cases hc : lookupA (collectCategories catFetch) b with
        | none =>
          rw [processOne_skip_nocat _ _ _ _ _ hf hc]
          exact hp
        | some cat =>
          rw [processOne_eq_of _ _ _ _ _ _ hf hc]
          have hname : ({ mi with category := cat } : ModInfo).name = b :=
            HF b mi hf
          rw [hname]
          have hbn : b ≠ n := by
            intro he
            rw [he, hn] at hf
            cases hf
          constructor
          · rw [lookupA_insertA_ne _ _ _ _ hbn.symm]
            exact hp.1
          · intro cat0 l0 hl0
            by_cases hcc : cat0 = cat
            · subst hcc
              rw [lookupA_adjustA_self] at hl0
              cases hb2 : lookupA st.2 cat0 with
              | none => rw [hb2] at hl0; cases hl0
              | some l1 =>
                rw [hb2] at hl0
                have hl1 : l1 ++ [b] = l0 := by simpa using hl0
                subst hl1
                intro hmem
                rcases List.mem_append.mp hmem with h1 | h1
                · exact hp.2 cat0 l1 hb2 h1
                · have h2 : n = b := by simpa using h1
                  exact hbn h2.symm
            · rw [lookupA_adjustA_ne _ _ _ _ hcc] at hl0
              exact hp.2 cat0 l0 hl0
    · constructor
      · rfl
      · intro cat l hl
        have h2 : l = [] := initBuckets_all_empty _ (lookupA_mem _ _ _ hl)
        subst h2
        exact List.not_mem_nil n
  · intro m mi hm hfm hcm
    rcases Option.isSome_iff_exists.mp hcm with ⟨cat, hcat⟩
    refine foldl_eventually (processOne (collectCategories catFetch) fetchMod)
      (fun st => (lookupA st.1 m).isSome = true) m ?_ ?_ order
      ([], initBuckets) hm
    · intro st b hp
      cases hf : fetchMod b with
      | none =>
        rw [processOne_skip_none _ _ _ _ hf]
        exact hp
      | some mi2 =>
        cases hc : lookupA (collectCategories catFetch) b with
        | none =>
          rw [processOne_skip_nocat _ _ _ _ _ hf hc]
          exact hp
        | some cat2 =>
          rw [processOne_eq_of _ _ _ _ _ _ hf hc]
          have hname : ({ mi2 with category := cat2 } : ModInfo).name = b :=
            HF b mi2 hf
          rw [hname]
          by_cases hbm : m = b
          · subst hbm
            rw [lookupA_insertA_self]
            rfl
          · rw [lookupA_insertA_ne _ _ _ _ hbm]
            exact hp
    · intro st
      rw [processOne_eq_of _ _ _ _ _ _ hfm hcat]
      have hname : ({ mi with category := cat } : ModInfo).name = m :=
        HF m mi hfm
      rw [hname, lookupA_insertA_self]
      rfl

/-- Detail fetch with one failing item, for the C3 witness. -/
def failFetch : String → Option ModInfo := fun n =>
  if n = "Bar Mod" then none else some (mkItem n)

theorem failFetch_names : ∀ n mi, failFetch n = some mi → mi.name = n := by
  intro n mi h
  unfold failFetch at h
  by_cases hb : n = "Bar Mod"
  · rw [if_pos hb] at h
    cases h
  · rw [if_neg hb] at h
    injection h with h2
    rw [← h2]
    rfl

/-- Witness for C3 at a concrete input. -/
theorem C3_witness :
    dbFailedExcluded
      (update_database cexCatFetch3 failFetch ["Foo Mod", "Bar Mod"] "t")
      failFetch :=
  (C3_failed_excluded cexCatFetch3 failFetch ["Foo Mod", "Bar Mod"] "t"
    failFetch_names).1

/-- C8: category-listing failures never fail the refresh.  A refresh where
some category listings fail equals the refresh where those listings return
zero members, and when every configured category's fetch fails the refresh
still produces a valid snapshot with zero items and all six buckets empty. -/
theorem C8_category_failures_isolated
    (catFetch : String → Except Unit (List String))
    (fetchMod : String → Option ModInfo) (order : List String) (now : String) :
    update_database catFetch fetchMod order now
      = update_database (fun k => errToEmpty (catFetch k)) fetchMod order now
    ∧ ((∀ p ∈ configuredCategories, catFetch p.2 = .error ()) →
        (update_database catFetch fetchMod order now).mods = []
        ∧ (update_database catFetch fetchMod order now).categories
            = initBuckets) := by
  have hc : collectCategories (fun k => errToEmpty (catFetch k))
      = collectCategories catFetch := by
    unfold collectCategories
    exact collectFold_errToEmpty catFetch configuredCategories []
  constructor
  · simp only [update_database]
    rw [hc]
  · intro hall
    have hmc : collectCategories catFetch = [] := by
      unfold collectCategories
      exact collectFold_all_error catFetch configuredCategories hall []
    have hid : ∀ (l : List String) st,
        List.foldl (processOne (collectCategories catFetch) fetchMod) st l
          = st := by
      intro l
      induction l with
      | nil => intro st; rfl
      | cons b rest ih =>
        intro st
        rw [List.foldl_cons]
        have hstep : processOne (collectCategories catFetch) fetchMod st b
            = st := by
          cases hf : fetchMod b with
          | none => exact processOne_skip_none _ _ _ _ hf
          | some mi =>
            refine processOne_skip_nocat _ _ _ _ _ hf ?_
            rw [hmc]
            rfl
        rw [hstep]
        exact ih st
    constructor
    · show (List.foldl (processOne (collectCategories catFetch) fetchMod)
        ([], initBuckets) order).1 = []
      rw [hid]
    · show (List.foldl (processOne (collectCategories catFetch) fetchMod)
        ([], initBuckets) order).2 = initBuckets
      rw [hid]

/-- Category fetch that always fails, for witnesses. -/
def errFetch : String → Except Unit (List String) := fun _ => .error ()

/-- Witness for C8 at a concrete input: with every category fetch failing,
the refresh still yields a snapshot with zero items. -/
theorem C8_witness :
    (update_database errFetch okFetch ["MA"] "t").mods = [] :=
  ((C8_category_failures_isolated errFetch okFetch ["MA"] "t").2
    (fun _ _ => rfl)).1

theorem configured_unique :
    ∀ d k1 k2, (d, k1) ∈ configuredCategories →
      (d, k2) ∈ configuredCategories → k1 = k2 := by
  intro d k1 k2 h1 h2
  simp only [configuredCategories, List.mem_cons, List.not_mem_nil, or_false,
    Prod.mk.injEq] at h1 h2
  rcases h1 with ⟨h1a, h1b⟩ | ⟨h1a, h1b⟩ | ⟨h1a, h1b⟩ | ⟨h1a, h1b⟩ |
    ⟨h1a, h1b⟩ | ⟨h1a, h1b⟩ <;>
  subst h1a <;> subst h1b <;>
  rcases h2 with ⟨h2a, h2b⟩ | ⟨h2a, h2b⟩ | ⟨h2a, h2b⟩ | ⟨h2a, h2b⟩ |
    ⟨h2a, h2b⟩ | ⟨h2a, h2b⟩ <;>
  first
    | (subst h2b; rfl)
    | (exact absurd h2a (by decide))

/-- C10: every snapshot produced by update_database carries exactly the six
configured category names as category_index keys, and a configured category
whose listing fetch failed, or listed no members, is still present, mapped
to the empty sequence. -/
theorem C10_all_buckets_present
    (catFetch : String → Except Unit (List String))
    (fetchMod : String → Option ModInfo) (order : List String) (now : String) :
    ((update_database catFetch fetchMod order now).categories.map Prod.fst
      = configuredCategories.map Prod.fst)
    ∧ (∀ p ∈ configuredCategories,
        (catFetch p.2 = .error () ∨ catFetch p.2 = .ok []) →
        lookupA (update_database catFetch fetchMod order now).categories p.1
          = some []) := by
  constructor
  · show ((List.foldl (processOne (collectCategories catFetch) fetchMod)
      ([], initBuckets) order).2).map Prod.fst
        = configuredCategories.map Prod.fst
    refine foldl_preserve (processOne (collectCategories catFetch) fetchMod)
      (fun st => (st.2).map Prod.fst = configuredCategories.map Prod.fst)
      ?_ order ([], initBuckets) (by decide)
    intro st b hp
    cases hf : fetchMod b with
    | none =>
      rw [processOne_skip_none _ _ _ _ hf]
      exact hp
    | some mi =>
      cases hc : lookupA (collectCategories catFetch) b with
      | none =>
        rw [processOne_skip_nocat _ _ _ _ _ hf hc]
        exact hp
      | some cat =>
        rw [processOne_eq_of _ _ _ _ _ _ hf hc]
        dsimp only
        rw [mapFst_adjustA]
        exact hp
  · intro p hp hfail
    have hno : ∀ n2, lookupA (collectCategories catFetch) n2 ≠ some p.1 := by
      intro n2 hsome
      rcases lookupA_collectFold catFetch configuredCategories [] n2 p.1 hsome
        with h1 | ⟨k, names, hm, hok, hn⟩
      · simp [lookupA] at h1
      · have hk : k = p.2 := by
          refine configured_unique p.1 k p.2 hm ?_
          rw [Prod.mk.eta]
          exact hp
        rw [hk] at hok
        rcases hfail with hf | hf
        · rw [hf] at hok
          cases hok
        · rw [hf] at hok
          injection hok with h2
          rw [← h2] at hn
          exact absurd hn (List.not_mem_nil n2)
    show lookupA ((List.foldl (processOne (collectCategories catFetch) fetchMod)
      ([], initBuckets) order).2) p.1 = some []
    refine foldl_preserve (processOne (collectCategories catFetch) fetchMod)
      (fun st => lookupA st.2 p.1 = some []) ?_ order ([], initBuckets) ?_
    · intro st b hpp
      cases hf : fetchMod b with
      | none =>
        rw [processOne_skip_none _ _ _ _ hf]
        exact hpp
      | some mi =>
        cases hc : lookupA (collectCategories catFetch) b with
        | none =>
          rw [processOne_skip_nocat _ _ _ _ _ hf hc]
          exact hpp
        | some cat =>
          rw [processOne_eq_of _ _ _ _ _ _ hf hc]
          have hcat : p.1 ≠ cat := by
            intro he
            exact hno b (by rw [hc, ← he])
          dsimp only
          rw [lookupA_adjustA_ne _ _ _ _ hcat]
          exact hpp
    · have hp2 := hp
      simp only [configuredCategories, List.mem_cons, List.not_mem_nil,
        or_false] at hp2
      rcases hp2 with h | h | h | h | h | h <;> subst h <;> decide

/-- Witness for C10 at a concrete input. -/
theorem C10_witness :
    (update_database errFetch okFetch [] "t").categories.map Prod.fst
      = configuredCategories.map Prod.fst :=
  (C10_all_buckets_present errFetch okFetch [] "t").1
